import Mathlib

/-!
Verification of the eigen-stuff-calculator core against its specification.

The TypeScript sources are shallowly embedded in Lean 4.  JavaScript numbers
are modelled as exact rationals (ℚ): all the concrete inputs used in the
theorems below keep every arithmetic step exact, so the rational model and
the IEEE-754 run of the program coincide on them.  `Math.sqrt` is modelled
by `Rat.sqrt`, which agrees with the exact square root whenever the argument
is a perfect rational square (every theorem that relies on a square root
either supplies such an argument or hypothesises exactness).
`Math.round` is `fun q => ⌊q + 1/2⌋`, which is exactly JavaScript's
half-up rounding.  Matrices are total functions `Nat → Nat → ℚ` together
with explicit row/column counts, mirroring index-based array access.
-/

namespace EigenCalc

/-- JavaScript `Math.round`: half-way cases round toward positive infinity. -/
def jsRound (q : ℚ) : ℤ := ⌊q + 1/2⌋

/-! ## Polynomial expander (`src/src/lib/expressionDeflater.ts`)

`expandPolynomialManual` tokenizes an algebraic expression string,
converts it to reverse Polish notation with the shunting-yard algorithm and
evaluates that over a polynomial algebra (coefficient lists in ascending
degree).  The embedding below follows the source function by function. -/

/-- Token produced by the tokenizer: numbers carry their parsed value
(`parseFloat` of the scanned digit/dot run). -/
inductive Token where
  | num (q : ℚ)
  | var
  | op (c : Char)
  | lparen
  | rparen
deriving DecidableEq

/-- Digits folded into a natural number, as repeated `10*acc + digit`. -/
def natOfDigits (cs : List Char) : Nat :=
  cs.foldl (fun a c => 10 * a + (c.toNat - '0'.toNat)) 0

/-- JavaScript `parseFloat` on a string of digits and dots: integer part,
then an optional fractional part up to a second dot (longest valid prefix). -/
def parseNumQ (cs : List Char) : ℚ :=
  let ip := cs.takeWhile Char.isDigit
  let rest := cs.dropWhile Char.isDigit
  let fp := match rest with
    | '.' :: r => r.takeWhile Char.isDigit
    | _ => []
  (natOfDigits ip : ℚ) + (natOfDigits fp : ℚ) / (10 : ℚ) ^ fp.length

/-- Scanner predicate for the number loop: `/[\d\.]/`. -/
def isNumChar (c : Char) : Bool := c.isDigit || c == '.'

/-- Tokenizer main loop (`tokenize` in the source).  `acc` is the token list
built so far; the unary-minus rewrite inspects its last element, and the
implicit-multiplication rules look ahead at the next character.  The `fuel`
argument only makes the recursion structural: every step consumes at least
one character, so starting the fuel at the character count never hits `0`. -/
def tokenizeGo : Nat → List Char → List Token → List Token
  | 0, _, acc => acc
  | _ + 1, [], acc => acc
  | fuel + 1, c :: cs, acc =>
    if c.isDigit then
      let rest := cs.dropWhile isNumChar
      let acc1 := acc ++ [Token.num (parseNumQ (c :: cs.takeWhile isNumChar))]
      let acc2 := match rest with
        | 'x' :: _ => acc1 ++ [Token.op '*']
        | '(' :: _ => acc1 ++ [Token.op '*']
        | _ => acc1
      tokenizeGo fuel rest acc2
    else if c == 'x' then
      let acc1 := acc ++ [Token.var]
      let acc2 := match cs with
        | '(' :: _ => acc1 ++ [Token.op '*']
        | _ => acc1
      tokenizeGo fuel cs acc2
    else if c == '+' || c == '-' || c == '*' || c == '^' then
      let unary := c == '-' &&
        (match acc.getLast? with
         | none => true
         | some (Token.op _) => true
         | some Token.lparen => true
         | some _ => false)
      if unary then
        tokenizeGo fuel cs (acc ++ [Token.num (-1), Token.op '*'])
      else
        tokenizeGo fuel cs (acc ++ [Token.op c])
    else if c == '(' then
      tokenizeGo fuel cs (acc ++ [Token.lparen])
    else if c == ')' then
      let acc1 := acc ++ [Token.rparen]
      let acc2 := match cs with
        | '(' :: _ => acc1 ++ [Token.op '*']
        | 'x' :: _ => acc1 ++ [Token.op '*']
        | _ => acc1
      tokenizeGo fuel cs acc2
    else
      tokenizeGo fuel cs acc

/-- `tokenize`: spaces are stripped first (`input.replace` of whitespace),
then the scanner runs over the remaining characters. -/
def tokenize (input : String) : List Token :=
  let chars := input.data.filter (fun c => !c.isWhitespace)
  tokenizeGo chars.length chars []

/-- Operator precedence table of `shuntingYard`. -/
def precOf : Char → Nat
  | '+' => 2
  | '-' => 2
  | '*' => 3
  | '^' => 4
  | _ => 0

/-- Associativity table: `^` is right-associative, the rest left. -/
def isLeftAssoc (c : Char) : Bool := c != '^'

/-- Operator-arrival loop of `shuntingYard`: pop operators to the output
while the stack top binds at least as tightly (strictly, for a
right-associative incoming operator). -/
def popOps (c : Char) : List Token → List Token → List Token × List Token
  | Token.op t :: rest, out =>
    if (isLeftAssoc c && decide (precOf c ≤ precOf t)) ||
       (!isLeftAssoc c && decide (precOf c < precOf t)) then
      popOps c rest (out ++ [Token.op t])
    else
      (out, Token.op t :: rest)
  | stack, out => (out, stack)

/-- Right-parenthesis loop of `shuntingYard`: pop to the output until a left
parenthesis (or an empty stack) is found. -/
def popUntilLParen : List Token → List Token → List Token × List Token
  | [], out => (out, [])
  | Token.lparen :: rest, out => (out, Token.lparen :: rest)
  | t :: rest, out => popUntilLParen rest (out ++ [t])

/-- Main loop of `shuntingYard` over the token list; at the end the
remaining operator stack is drained to the output. -/
def shuntingYardGo : List Token → List Token → List Token → List Token
  | [], out, stack => out ++ stack
  | t :: ts, out, stack =>
    match t with
    | Token.num q => shuntingYardGo ts (out ++ [Token.num q]) stack
    | Token.var => shuntingYardGo ts (out ++ [Token.var]) stack
    | Token.op c =>
      let p := popOps c stack out
      shuntingYardGo ts p.1 (Token.op c :: p.2)
    | Token.lparen => shuntingYardGo ts out (Token.lparen :: stack)
    | Token.rparen =>
      let p := popUntilLParen stack out
      shuntingYardGo ts p.1 p.2.tail

/-- `shuntingYard`: infix token list to reverse Polish notation. -/
def shuntingYard (tokens : List Token) : List Token :=
  shuntingYardGo tokens [] []

/-- `polyAdd`: pointwise sum, missing entries read as `0`. -/
def polyAdd (p1 p2 : List ℚ) : List ℚ :=
  (List.range (max p1.length p2.length)).map (fun i => p1.getD i 0 + p2.getD i 0)

/-- `polySub`: pointwise difference, missing entries read as `0`. -/
def polySub (p1 p2 : List ℚ) : List ℚ :=
  (List.range (max p1.length p2.length)).map (fun i => p1.getD i 0 - p2.getD i 0)

/-- `polyMultiply`: convolution product of the coefficient lists. -/
def polyMultiply (p1 p2 : List ℚ) : List ℚ :=
  (List.range (p1.length + p2.length - 1)).map
    (fun k => ((List.range (k + 1)).map (fun i => p1.getD i 0 * p2.getD (k - i) 0)).sum)

/-- `polyPower`: repeated convolution of `[1]` with the base, `exp` times. -/
def polyPower (base : List ℚ) (exp : Nat) : List ℚ :=
  (List.range exp).foldl (fun res _ => polyMultiply res base) [1]

/-- The exponentiation case of `evaluateRPN`: rejected when the exponent
polynomial has more than one coefficient or a negative constant; otherwise
the constant is rounded (`Math.round`) and used as the power. -/
def powStep (a b : List ℚ) : Except String (List ℚ) :=
  if 1 < b.length ∨ b.headD 0 < 0 then
    Except.error "Only positive integer exponents supported"
  else
    Except.ok (polyPower a (jsRound (b.headD 0)).toNat)

/-- Main loop of `evaluateRPN` over a stack of polynomials.  Popping an
operand off an empty stack aborts (in JavaScript the `undefined` operand
throws inside the polynomial helpers; both land in the caller's catch).
At the end the bottom of the stack (`stack[0]`) is returned, `[0]` when
the stack is empty. -/
def evaluateRPNGo : List Token → List (List ℚ) → Except String (List ℚ)
  | [], stack => Except.ok (stack.getLast?.getD [0])
  | t :: ts, stack =>
    match t with
    | Token.num q => evaluateRPNGo ts ([q] :: stack)
    | Token.var => evaluateRPNGo ts ([0, 1] :: stack)
    | Token.op c =>
      match stack with
      | b :: a :: rest =>
        match c with
        | '+' => evaluateRPNGo ts (polyAdd a b :: rest)
        | '-' => evaluateRPNGo ts (polySub a b :: rest)
        | '*' => evaluateRPNGo ts (polyMultiply a b :: rest)
        | '^' =>
          match powStep a b with
          | Except.ok p => evaluateRPNGo ts (p :: rest)
          | Except.error e => Except.error e
        | _ => evaluateRPNGo ts rest
      | _ => Except.error "operand stack underflow"
    | _ => evaluateRPNGo ts stack

/-- `evaluateRPN`: evaluate a postfix token list over the polynomial algebra
(ascending-degree coefficient lists). -/
def evaluateRPN (rpn : List Token) : Except String (List ℚ) :=
  evaluateRPNGo rpn []

/-- Cleanup loop of `expandPolynomialManual`: drop leading (highest-degree)
coefficients of magnitude below `1e-9` while more than one entry remains. -/
def stripLeadingSmall : List ℚ → List ℚ
  | [] => []
  | [a] => [a]
  | a :: b :: rest =>
    if |a| < 1 / 10 ^ 9 then stripLeadingSmall (b :: rest) else a :: b :: rest

/-- Coefficient component of `expandPolynomialManual`: tokenize, convert to
reverse Polish notation, evaluate, reverse to descending order and strip
near-zero leading coefficients.  A thrown parse error is caught and turns
into the empty coefficient list (the source also sets `expression` to
`"Error"`; only the coefficients are modelled here). -/
def expandCoefficients (equation : String) : List ℚ :=
  match evaluateRPN (shuntingYard (tokenize equation)) with
  | Except.error _ => []
  | Except.ok asc => stripLeadingSmall asc.reverse

/-! ## Real-root solver (`src/src/lib/realRootsSolver.ts`)

`solveRealRoots` strips leading zero coefficients and dispatches on the
remaining length: no roots for empty/constant input, closed forms for the
linear and quadratic cases, `validateEigenvalues ∘ solveCubicOptimized` for
cubics and `validateEigenvalues ∘ optimizedNewtonRaphson` for higher
degrees.  The cubic solver (cube roots, `Math.cos`/`Math.acos`) and the
Newton-Raphson solver (`Math.random` seeding, mathjs compilation) compute
with transcendental floating-point functions and randomness that have no
exact rational counterpart, so their result lists enter the embedding as
the arguments `cubicRoots` and `nrRoots`; everything else is translated
directly. -/

/-- Snapping step of `validateEigenvalues`: a value within `1e-6` of an
integer becomes that integer, a value within `1e-6` of zero becomes `0`. -/
def snapValue (ev : ℚ) : ℚ :=
  let rounded : ℤ := jsRound ev
  if |ev - (rounded : ℚ)| < 1 / 10 ^ 6 then (rounded : ℚ)
  else if |ev| < 1 / 10 ^ 6 then 0
  else ev

/-- Deduplication step of `validateEigenvalues` (the `reduce`): a value is
kept only when no previously kept value lies within `1e-6` of it. -/
def dedupClose (snapped : List ℚ) : List ℚ :=
  snapped.foldl
    (fun acc current =>
      if acc.any (fun u => decide (|u - current| < 1 / 10 ^ 6)) then acc
      else acc ++ [current])
    []

/-- `validateEigenvalues`: snap near-integer/near-zero values, then remove
duplicates within the same `1e-6` threshold. -/
def validateEigenvalues (eigenvalues : List ℚ) : List ℚ :=
  dedupClose (eigenvalues.map snapValue)

/-- Leading-zero-coefficient stripping loop at the top of `solveRealRoots`
(exact comparison with `0`, as in the source's `=== 0`). -/
def cleanCoeffs : List ℚ → List ℚ
  | [] => []
  | c :: rest => if c = 0 then cleanCoeffs rest else c :: rest

/-- JavaScript `roots.sort((a, b) => a - b)`: ascending numeric sort. -/
def jsSortNum (l : List ℚ) : List ℚ := l.insertionSort (fun a b => a ≤ b)

/-- `solveRealRoots` on descending coefficients.  The `isFinite` guards of
the source are identically true over ℚ and are dropped; `cubicRoots` and
`nrRoots` stand for the results of `solveCubicOptimized` and
`optimizedNewtonRaphson` (see the section comment). -/
def solveRealRoots (inputCoeffs : List ℚ) (_poly : String)
    (cubicRoots nrRoots : List ℚ) : List ℚ :=
  match cleanCoeffs inputCoeffs with
  | [] => []
  | [_] => []
  | [a, b] => [if b = 0 then 0 else -b / a]
  | [a, b, c] =>
    let discriminant := b * b - 4 * a * c
    if 0 ≤ discriminant then
      let sqrtDisc := Rat.sqrt discriminant
      let root1 := (-b + sqrtDisc) / (2 * a)
      let root2 := (-b - sqrtDisc) / (2 * a)
      jsSortNum (root1 :: (if 1 / 10 ^ 14 < |root1 - root2| then [root2] else []))
    else []
  | [_, _, _, _] => validateEigenvalues cubicRoots
  | _ => validateEigenvalues nrRoots

/-! ## Matrix operations (`src/src/lib/matrixOperations.ts`)

A matrix is a total function `Nat → Nat → ℚ` with explicit row/column
counts.  Only numeric cells are modelled: in every code path verified here
the symbolic cells have already been substituted to numbers, so the
`typeof === 'number'` guards of the source are identically true. -/

/-- Matrices over the rational model of JavaScript numbers. -/
def Mat : Type := Nat → Nat → ℚ

/-- `E1`: swap rows `r1` and `r2`. -/
def E1 (m : Mat) (r1 r2 : Nat) : Mat := fun i j =>
  if i = r2 then m r1 j else if i = r1 then m r2 j else m i j

/-- `E2`: scale row `r` by `scalar`. -/
def E2 (m : Mat) (r : Nat) (scalar : ℚ) : Mat := fun i j =>
  if i = r then m i j * scalar else m i j

/-- `E3`: row replacement `r2 := r2 - scalar * r1`. -/
def E3 (m : Mat) (r1 r2 : Nat) (scalar : ℚ) : Mat := fun i j =>
  if i = r2 then m r2 j - m r1 j * scalar else m i j

/-- Pivot search loop of `rref`: scan `remaining` rows starting at `row`
for the first entry in column `col` that is not exactly `0`. -/
def findPivotRowGo (m : Mat) (col : Nat) : Nat → Nat → Option Nat
  | _, 0 => none
  | row, remaining + 1 =>
    if m row col ≠ 0 then some row else findPivotRowGo m col (row + 1) remaining

/-- First row at or below `currentRow` (and below `rows`) whose entry in
column `col` is non-zero; `none` when every such entry is zero. -/
def findPivotRow (m : Mat) (col currentRow rows : Nat) : Option Nat :=
  findPivotRowGo m col currentRow (rows - currentRow)

/-- Elimination loop of `rref` (step 4): for every row other than the pivot
row whose entry in the pivot column is non-zero, subtract that multiple of
the pivot row. -/
def elimOthers (m : Mat) (currentRow col rows : Nat) : Mat :=
  (List.range rows).foldl
    (fun acc row =>
      if row ≠ currentRow ∧ acc row col ≠ 0 then
        E3 acc currentRow row (acc row col)
      else acc)
    m

/-- One column iteration of `rref`: find a pivot (steps 1–2), swap it up if
needed, scale the pivot row so the pivot is `1` (step 3, skipped when it
already is), eliminate the rest of the column (step 4) and advance the
current row; when no pivot exists the column is skipped and the current row
does not advance. -/
def rrefStep (rows : Nat) (mc : Mat × Nat) (col : Nat) : Mat × Nat :=
  match findPivotRow mc.1 col mc.2 rows with
  | none => mc
  | some pivotRowIndex =>
    let m1 := if pivotRowIndex ≠ mc.2 then E1 mc.1 pivotRowIndex mc.2 else mc.1
    let pivotValue := m1 mc.2 col
    let m2 := if pivotValue ≠ 1 then E2 m1 mc.2 (1 / pivotValue) else m1
    (elimOthers m2 mc.2 col rows, mc.2 + 1)

/-- Column loop of `rref`: process the columns left to right while the
current pivot row is still inside the matrix. -/
def rrefCols (rows : Nat) : List Nat → Mat × Nat → Mat
  | [], mc => mc.1
  | col :: rest, mc =>
    if mc.2 < rows then rrefCols rows rest (rrefStep rows mc col) else mc.1

/-- `rref`: reduced row echelon form by Gauss-Jordan elimination. -/
def rref (rows cols : Nat) (m : Mat) : Mat :=
  rrefCols rows (List.range cols) (m, 0)

/-- Numerical tolerance used by `findNullSpace` (`1e-12`). -/
def nsTol : ℚ := 1 / 10 ^ 12

/-- Leading-one test of `findNullSpace`: the entry is within tolerance of
`1` and no earlier entry of the row exceeds the tolerance in magnitude. -/
def isLeadingEntry (m : Mat) (row col : Nat) : Bool :=
  decide (|m row col - 1| < nsTol) &&
    (List.range col).all (fun prevCol => !decide (nsTol < |m row prevCol|))

/-- Per-row scan of the pivot-collection loop of `findNullSpace`: the first
column that is a leading one and is not already recorded. -/
def firstNewLeadingCol (m : Mat) (row cols : Nat) (acc : List Nat) : Option Nat :=
  (List.range cols).find? (fun col => isLeadingEntry m row col && !acc.contains col)

/-- Pivot-column collection loop of `findNullSpace`. -/
def pivotColsOf (m : Mat) (rows cols : Nat) : List Nat :=
  (List.range rows).foldl
    (fun acc row =>
      match firstNewLeadingCol m row cols acc with
      | some c => acc ++ [c]
      | none => acc)
    []

/-- Pivot column of a single row as found by the second loop of
`findNullSpace` (no already-recorded check there). -/
def rowLeadingCol (m : Mat) (row cols : Nat) : Option Nat :=
  (List.range cols).find? (fun col => isLeadingEntry m row col)

/-- Fallback vector `e1` returned by `findNullSpace` when no free variable
is found (`Array(cols).fill(0).map((_, i) => i === 0 ? 1 : 0)`). -/
def stdFirstBasisVector : Nat → ℚ := fun i => if i = 0 then 1 else 0

/-- Basis-vector construction of `findNullSpace` for one free variable:
start from the indicator of the free variable, then for each row with a
pivot column write the negated free-variable coefficient there (only when
that coefficient exceeds the tolerance). -/
def basisVectorFor (m : Mat) (rows cols freeVar : Nat) : Nat → ℚ :=
  (List.range rows).foldl
    (fun v row =>
      match rowLeadingCol m row cols with
      | some pivotCol =>
        let coeff := m row freeVar
        if nsTol < |coeff| then Function.update v pivotCol (-coeff) else v
      | none => v)
    (Function.update (fun _ => 0) freeVar 1)

/-- `findNullSpace`: row reduce, collect pivot columns with tolerance,
treat the remaining columns as free variables and build one basis vector
per free variable; with no free variables (and, vacuously, with an empty
vector list) fall back to the standard basis vector `e1`. -/
def findNullSpace (rows cols : Nat) (m : Mat) : List (Nat → ℚ) :=
  let rrefMatrix := rref rows cols m
  let pivotCols := pivotColsOf rrefMatrix rows cols
  let freeVars := (List.range cols).filter (fun col => !pivotCols.contains col)
  if freeVars.isEmpty then [stdFirstBasisVector]
  else
    let basisVectors := freeVars.map (basisVectorFor rrefMatrix rows cols)
    if basisVectors.isEmpty then [stdFirstBasisVector] else basisVectors

/-! ## Characteristic matrix and eigenspace builder
(`src/unnamed/part_013`, `src/src/lib/eigenStuffFinder.ts`)

The `xI − A` cells are a union of numbers and the strings `"x"`,
`"x - v"`, `"x + v"`; they are embedded as a closed tagged type whose
constructors mirror the three string shapes and the numeric case.
`math.evaluate` of such a string with `x` replaced by the eigenvalue is
exactly the arithmetic in `substCell`. -/

/-- Cell of the symbolic characteristic matrix. -/
inductive Cell where
  | x
  | xMinus (v : ℚ)
  | xPlus (v : ℚ)
  | num (q : ℚ)
deriving DecidableEq

/-- Whether a cell mentions the free variable (is one of the string
shapes rather than a plain number). -/
def cellContainsVar : Cell → Bool
  | Cell.num _ => false
  | _ => true

/-- `createXIMinusAMatrix`: diagonal cells are `"x"`, `"x - v"` (`v > 0`)
or `"x + |v|"` (`v < 0`); off-diagonal cells are the negated entries. -/
def createXIMinusAMatrix (inputMatrix : Mat) : Nat → Nat → Cell := fun i j =>
  if i = j then
    if inputMatrix i j = 0 then Cell.x
    else if 0 < inputMatrix i j then Cell.xMinus (inputMatrix i j)
    else Cell.xPlus |inputMatrix i j|
  else Cell.num (-(inputMatrix i j))

/-- Substitution of the eigenvalue for `x` in one cell followed by numeric
evaluation (`math.evaluate` on the substituted string). -/
def substCell (lam : ℚ) : Cell → ℚ
  | Cell.x => lam
  | Cell.xMinus v => lam - v
  | Cell.xPlus v => lam + v
  | Cell.num q => q

/-- The numeric matrix obtained by substituting the eigenvalue into every
symbolic cell of `xI − A`. -/
def substMatrix (xIMinusA : Nat → Nat → Cell) (lam : ℚ) : Mat := fun i j =>
  substCell lam (xIMinusA i j)

/-- Eigenspace record: an eigenvalue with a list of basis vectors. -/
structure Eigenspace where
  eigenvalue : ℚ
  basis : List (Nat → ℚ)

/-- The non-zero filter applied to the null-space result inside
`findEigenvectorBasis` (`vec.some(c => Math.abs(c) > 1e-12)`), used there
only to decide whether to log a diagnostic. -/
def validBasisOf (n : Nat) (basis : List (Nat → ℚ)) : List (Nat → ℚ) :=
  basis.filter (fun vec => (List.range n).any (fun j => decide (nsTol < |vec j|)))

/-- `findEigenvectorBasis` (the `part_013` version): substitute the
eigenvalue into a deep copy of `xI − A`, compute the null space, and return
it as the basis.  The filtered `validBasis` only gates a `console.warn`;
the returned basis is the unfiltered null-space result. -/
def findEigenvectorBasis (xIMinusA : Nat → Nat → Cell) (n : Nat) (lam : ℚ) :
    Eigenspace :=
  let nullSpace := findNullSpace n n (substMatrix xIMinusA lam)
  { eigenvalue := lam, basis := nullSpace }

/-- Entry `i` of the matrix-vector product over the first `n` columns
(used to state null-space membership of returned basis vectors). -/
def matVecEntry (n : Nat) (m : Mat) (v : Nat → ℚ) (i : Nat) : ℚ :=
  ((List.range n).map (fun j => m i j * v j)).sum

/-! ## Input validation of `findEigenvalues`
(`src/src/lib/eigenStuffFinder.ts`, `src/unnamed/part_013`)

`findEigenvalues` throws before any computation when the matrix is empty
or some row's length differs from the row count.  Everything downstream of
the validation calls into the mathjs library (`math.simplify`,
`math.rationalize`, `math.eigs`), so it is abstracted as an arbitrary
continuation `rest`; the `Except` result makes "no partial result on
error" structural. -/

/-- Validation prefix of `findEigenvalues` followed by the abstracted rest
of the pipeline.  Matrices are row lists here because the checks are about
lengths. -/
def findEigenvaluesChecked {α : Type} (rest : List (List ℚ) → α)
    (inputMatrix : List (List ℚ)) : Except String α :=
  if inputMatrix.length = 0 then Except.error "Matrix cannot be empty"
  else if inputMatrix.all (fun row => row.length = inputMatrix.length) then
    Except.ok (rest inputMatrix)
  else Except.error "Matrix must be square (n×n)"

/-! ## Solver-tier dispatch (`solveCharacteristicPolynomial`,
`src/unnamed/part_013`)

The three sub-solvers called there are `solveRealRoots` (whose result the
caller uses only for `n ≤ 3`), `findEigenvaluesByDiagonalization` (QR
iteration over floating-point Gram-Schmidt) and the library fallback
`math.eigs`.  Their result lists enter as an oracle record — `none` for
the two fallible ones models a thrown exception, which the source catches.
The returned tier list records which solvers were invoked, in order. -/

/-- Solver tiers of the pipeline. -/
inductive Tier where
  | realRootsTier
  | diagTier
  | eigsTier
deriving DecidableEq

/-- Results the three sub-solvers would produce if called. -/
structure Oracles where
  realRoots : List ℚ
  diag : Option (List ℚ)
  eigs : Option (List ℚ)

/-- Control flow of `solveCharacteristicPolynomial` in `part_013`: sizes
outside 1–5 throw; `n ≤ 3` calls `solveRealRoots`; otherwise `roots` is
still the initial empty list, so the `else if (roots.length === 0)` branch
runs diagonalization directly, and `math.eigs` only when diagonalization
produced no roots (or threw). -/
def solveCharacteristicPolynomial (n : Nat) (o : Oracles) :
    Except String (List ℚ × List Tier) :=
  if n < 1 ∨ 5 < n then
    Except.error "Matrix size not supported for manual eigenvalue calculation."
  else if n ≤ 3 then
    Except.ok (o.realRoots, [Tier.realRootsTier])
  else
    let diagRoots :=
      match o.diag with
      | some ds => if 0 < ds.length then ds else []
      | none => []
    if diagRoots.length = 0 then
      match o.eigs with
      | some es => Except.ok (es, [Tier.diagTier, Tier.eigsTier])
      | none => Except.ok ([], [Tier.diagTier, Tier.eigsTier])
    else
      Except.ok (diagRoots, [Tier.diagTier])

/-! ## Helper lemmas -/

/-- Concrete unfolding of `List.range 1` for evaluation by `simp`. -/
theorem listRange1 : List.range 1 = [0] := by decide

/-- Concrete unfolding of `List.range 2` for evaluation by `simp`. -/
theorem listRange2 : List.range 2 = [0, 1] := by decide

/-- Concrete unfolding of `List.range 3` for evaluation by `simp`. -/
theorem listRange3 : List.range 3 = [0, 1, 2] := by decide

/-- Concrete unfolding of `List.range 4` for evaluation by `simp`. -/
theorem listRange4 : List.range 4 = [0, 1, 2, 3] := by decide

/-- Concrete unfolding of `List.range 5` for evaluation by `simp`. -/
theorem listRange5 : List.range 5 = [0, 1, 2, 3, 4] := by decide

/-- The rational square root of `1` is `1`. -/
theorem ratSqrt_one : Rat.sqrt 1 = 1 := by simp [Rat.sqrt]

/-! ## Claim C2 — polynomial expansion of `(x-1)^2` -/

/-- C2: applying the polynomial expander to the expression string
`(x-1)^2` returns the descending-degree coefficient list `[1, -2, 1]`. -/
theorem expand_sq_x_minus_one : expandCoefficients "(x-1)^2" = [1, -2, 1] := by
  simp +decide [expandCoefficients, tokenize, tokenizeGo, parseNumQ, natOfDigits, isNumChar,
    shuntingYard, shuntingYardGo, popOps, popUntilLParen, precOf, isLeftAssoc,
    evaluateRPN, evaluateRPNGo, powStep, polyAdd, polySub, polyMultiply, polyPower,
    jsRound, Int.toNat_ofNat, Nat.succ_eq_add_one, List.range_succ, stripLeadingSmall]
  norm_num [listRange1, listRange2, listRange3, stripLeadingSmall]

/-! ## Claim C9 — exponent handling in the RPN evaluator -/

/-- C9 counterexample: the claim states that `^` raises an error unless the
exponent reduces to a non-negative-integer constant polynomial.  The
exponent `2.5` is a constant but not an integer, yet the evaluator accepts
it (rounding to `3`): the whole pipeline turns `x^2.5` into the
coefficients of `x³`, and the `^` step itself returns a success value. -/
theorem powStep_accepts_noninteger_exponent :
    expandCoefficients "x^2.5" = [1, 0, 0, 0] ∧
    powStep [0, 1] [5 / 2] = Except.ok [0, 0, 0, 1] ∧
    (∀ k : ℤ, ((5 : ℚ) / 2) ≠ (k : ℚ)) := by
  refine ⟨?_, ?_, ?_⟩
  · simp +decide [expandCoefficients, tokenize, tokenizeGo, parseNumQ, natOfDigits, isNumChar,
      shuntingYard, shuntingYardGo, popOps, popUntilLParen, precOf, isLeftAssoc,
      evaluateRPN, evaluateRPNGo, powStep, polyAdd, polySub, polyMultiply, polyPower,
      jsRound, Int.toNat_ofNat, Nat.succ_eq_add_one, List.range_succ, stripLeadingSmall]
    norm_num [listRange1, listRange2, listRange3, stripLeadingSmall]
  · simp +decide [powStep, polyPower, polyMultiply, jsRound]
    norm_num [Int.toNat_ofNat, listRange1, listRange2, listRange3]
    norm_num [show Int.toNat 3 = 3 from rfl, listRange1, listRange2, listRange3]
    norm_num [listRange1, listRange2, listRange3, listRange4]
  · intro k h
    have h5 : (5 : ℚ) = 2 * (k : ℚ) := by field_simp at h; linarith
    have h5z : (5 : ℤ) = 2 * k := by exact_mod_cast h5
    omega

/-- C9 amended: the `^` step raises an error exactly when the exponent
operand is a non-constant polynomial or a negative constant — a
non-negative constant is accepted even when it is not an integer (it is
rounded).  In particular `x^x` and `x^-1` are rejected, surfacing as the
empty coefficient list of a caught parse error, while `x^2.5` is
evaluated. -/
theorem powStep_rejection_characterization :
    (∀ a b : List ℚ,
      (∃ e, powStep a b = Except.error e) ↔ (1 < b.length ∨ b.headD 0 < 0)) ∧
    expandCoefficients "x^x" = [] ∧
    expandCoefficients "x^-1" = [] ∧
    expandCoefficients "x^2.5" = [1, 0, 0, 0] := by
  refine ⟨?_, ?_, ?_, ?_⟩
  · intro a b
    by_cases h : 1 < b.length ∨ b.headD 0 < 0
    · exact iff_of_true ⟨"Only positive integer exponents supported", by rw [powStep, if_pos h]⟩ h
    · refine iff_of_false ?_ h
      rintro ⟨e, he⟩
      rw [powStep, if_neg h] at he
      exact Except.noConfusion he
  · simp +decide [expandCoefficients, tokenize, tokenizeGo, parseNumQ, natOfDigits, isNumChar,
      shuntingYard, shuntingYardGo, popOps, popUntilLParen, precOf, isLeftAssoc,
      evaluateRPN, evaluateRPNGo, powStep, polyAdd, polySub, polyMultiply, polyPower,
      jsRound, stripLeadingSmall]
  · simp +decide [expandCoefficients, tokenize, tokenizeGo, parseNumQ, natOfDigits, isNumChar,
      shuntingYard, shuntingYardGo, popOps, popUntilLParen, precOf, isLeftAssoc,
      evaluateRPN, evaluateRPNGo, powStep, polyAdd, polySub, polyMultiply, polyPower,
      jsRound, stripLeadingSmall]
  · simp +decide [expandCoefficients, tokenize, tokenizeGo, parseNumQ, natOfDigits, isNumChar,
      shuntingYard, shuntingYardGo, popOps, popUntilLParen, precOf, isLeftAssoc,
      evaluateRPN, evaluateRPNGo, powStep, polyAdd, polySub, polyMultiply, polyPower,
      jsRound, Int.toNat_ofNat, Nat.succ_eq_add_one, List.range_succ, stripLeadingSmall]
    norm_num [listRange1, listRange2, listRange3, stripLeadingSmall]

/-! ## Claim C7 — shape of the characteristic matrix -/

/-- C7: the characteristic matrix has diagonal cells `x`, `x - v` (for
`v > 0`) or `x + |v|` (for `v < 0`), off-diagonal cells the negated input
entries; every diagonal cell contains the free variable and no
off-diagonal cell does. -/
theorem createXIMinusA_cell_shapes (A : Mat) (i j : Nat) :
    (i = j →
      (A i j = 0 → createXIMinusAMatrix A i j = Cell.x) ∧
      (0 < A i j → createXIMinusAMatrix A i j = Cell.xMinus (A i j)) ∧
      (A i j < 0 → createXIMinusAMatrix A i j = Cell.xPlus |A i j|) ∧
      cellContainsVar (createXIMinusAMatrix A i j) = true) ∧
    (i ≠ j →
      createXIMinusAMatrix A i j = Cell.num (-(A i j)) ∧
      cellContainsVar (createXIMinusAMatrix A i j) = false) := by
  constructor
  · intro hij
    subst hij
    have hdef : createXIMinusAMatrix A i i =
        (if A i i = 0 then Cell.x
         else if 0 < A i i then Cell.xMinus (A i i) else Cell.xPlus |A i i|) := by
      simp [createXIMinusAMatrix]
    refine ⟨fun h0 => ?_, fun hpos => ?_, fun hneg => ?_, ?_⟩
    · rw [hdef, if_pos h0]
    · rw [hdef, if_neg hpos.ne', if_pos hpos]
    · rw [hdef, if_neg hneg.ne, if_neg (lt_asymm hneg)]
    · rw [hdef]
      split_ifs <;> rfl
  · intro hij
    constructor
    · simp [createXIMinusAMatrix, hij]
    · simp [createXIMinusAMatrix, hij, cellContainsVar]

/-- C7 witness: concrete instantiation on the constant-3 matrix. -/
theorem createXIMinusA_cell_shapes_witness :
    createXIMinusAMatrix (fun _ _ => 3) 0 0 = Cell.xMinus 3 ∧
    createXIMinusAMatrix (fun _ _ => 3) 0 1 = Cell.num (-3) :=
  ⟨((createXIMinusA_cell_shapes (fun _ _ => 3) 0 0).1 rfl).2.1 (by norm_num),
   ((createXIMinusA_cell_shapes (fun _ _ => 3) 0 1).2 (by decide)).1⟩

/-! ## Claim C8 — input validation of `findEigenvalues` -/

/-- C8: `findEigenvalues` raises an error immediately on an empty matrix
or a non-square matrix (some row's length differing from the row count)
and produces no partial result in that case. -/
theorem findEigenvalues_input_validation {α : Type} (inputMatrix : List (List ℚ))
    (rest : List (List ℚ) → α) :
    (inputMatrix = [] →
      findEigenvaluesChecked rest inputMatrix = Except.error "Matrix cannot be empty") ∧
    ((∃ row ∈ inputMatrix, row.length ≠ inputMatrix.length) →
      findEigenvaluesChecked rest inputMatrix = Except.error "Matrix must be square (n×n)") ∧
    ((inputMatrix = [] ∨ ∃ row ∈ inputMatrix, row.length ≠ inputMatrix.length) →
      ∀ result : α, findEigenvaluesChecked rest inputMatrix ≠ Except.ok result) := by
  refine ⟨fun hempty => ?_, fun hbad => ?_, fun hcase result => ?_⟩
  · subst hempty
    simp [findEigenvaluesChecked]
  · obtain ⟨row, hmem, hlen⟩ := hbad
    have hne : inputMatrix.length ≠ 0 := by
      intro h0
      rw [List.length_eq_zero] at h0
      subst h0
      exact absurd hmem (List.not_mem_nil row)
    have hall : ¬ inputMatrix.all (fun row => row.length = inputMatrix.length) = true := by
      intro hall
      rw [List.all_eq_true] at hall
      have := hall row hmem
      simp at this
      exact hlen this
    simp only [findEigenvaluesChecked, if_neg hne]
    rw [if_neg hall]
  · rcases hcase with hempty | hbad
    · subst hempty
      simp [findEigenvaluesChecked]
    · obtain ⟨row, hmem, hlen⟩ := hbad
      have hne : inputMatrix.length ≠ 0 := by
        intro h0
        rw [List.length_eq_zero] at h0
        subst h0
        exact absurd hmem (List.not_mem_nil row)
      have hall : ¬ inputMatrix.all (fun row => row.length = inputMatrix.length) = true := by
        intro hall
        rw [List.all_eq_true] at hall
        have := hall row hmem
        simp at this
        exact hlen this
      simp only [findEigenvaluesChecked, if_neg hne]
      rw [if_neg hall]
      simp

/-- C8 witness: the matrix `[[1], [2, 3]]` is non-square and is rejected
with the squareness error; no success value is produced. -/
theorem findEigenvalues_input_validation_witness :
    (∃ row ∈ ([[1], [2, 3]] : List (List ℚ)), row.length ≠ 2) ∧
    findEigenvaluesChecked (fun _ => (0 : Nat)) ([[1], [2, 3]] : List (List ℚ)) =
      Except.error "Matrix must be square (n×n)" :=
  ⟨⟨[1], by simp, by simp⟩,
   (findEigenvalues_input_validation ([[1], [2, 3]] : List (List ℚ)) (fun _ => (0 : Nat))).2.1
     ⟨[1], by simp, by simp⟩⟩

/-! ## Claim C1 — solver-tier order for degree 4–5 -/

/-- C1 counterexample: for a 4×4 matrix the caller invokes the
diagonalization tier even though the hybrid Newton-Raphson solver (whose
result here would be the non-empty root list `[1, 2, 3, 4]`) was never
consulted: the returned trace is `[diagTier]` — diagonalization was not
gated on the hybrid solver returning zero roots, and no Newton-Raphson
tier ran first. -/
theorem solveCharPoly_skips_newton_raphson_deg4 :
    solveCharacteristicPolynomial 4
        { realRoots := [1, 2, 3, 4], diag := some [7], eigs := some [9] } =
      Except.ok ([7], [Tier.diagTier]) ∧
    Tier.realRootsTier ∉ [Tier.diagTier] ∧
    ([1, 2, 3, 4] : List ℚ) ≠ [] := by
  refine ⟨?_, by decide, by simp⟩
  simp [solveCharacteristicPolynomial]

/-- C1 amended: for matrix sizes 1–3 only the `solveRealRoots` tier runs;
for sizes 4–5 the Newton-Raphson/`solveRealRoots` tier is skipped
entirely — diagonalization is invoked unconditionally and the `math.eigs`
fallback exactly when diagonalization yields no roots (or throws). -/
theorem solveCharPoly_tier_order (n : Nat) (o : Oracles) :
    (1 ≤ n → n ≤ 3 →
      solveCharacteristicPolynomial n o = Except.ok (o.realRoots, [Tier.realRootsTier])) ∧
    (4 ≤ n → n ≤ 5 →
      ∃ res : List ℚ × List Tier,
        solveCharacteristicPolynomial n o = Except.ok res ∧
        Tier.realRootsTier ∉ res.2 ∧
        Tier.diagTier ∈ res.2 ∧
        (Tier.eigsTier ∈ res.2 ↔ o.diag.getD [] = [])) := by
  constructor
  · intro h1 h3
    have hne : ¬ (n < 1 ∨ 5 < n) := by omega
    simp only [solveCharacteristicPolynomial, if_neg hne, if_pos h3]
  · intro h4 h5
    have hne : ¬ (n < 1 ∨ 5 < n) := by omega
    have hn3 : ¬ n ≤ 3 := by omega
    simp only [solveCharacteristicPolynomial, if_neg hne, if_neg hn3]
    rcases hdiag : o.diag with _ | ds
    · rcases hop : o.eigs with _ | es
      · exact ⟨([], [Tier.diagTier, Tier.eigsTier]), by simp [hdiag, hop], by simp, by simp,
          by simp [hdiag]⟩
      · exact ⟨(es, [Tier.diagTier, Tier.eigsTier]), by simp [hdiag, hop], by simp, by simp,
          by simp [hdiag]⟩
    · rcases ds with _ | ⟨d, ds'⟩
      · rcases hop : o.eigs with _ | es
        · exact ⟨([], [Tier.diagTier, Tier.eigsTier]), by simp [hdiag, hop], by simp, by simp,
            by simp [hdiag]⟩
        · exact ⟨(es, [Tier.diagTier, Tier.eigsTier]), by simp [hdiag, hop], by simp, by simp,
            by simp [hdiag]⟩
      · exact ⟨(d :: ds', [Tier.diagTier]), by simp [hdiag], by simp, by simp, by simp [hdiag]⟩

/-- C1 amended witness: concrete runs at sizes 2 and 4. -/
theorem solveCharPoly_tier_order_witness :
    solveCharacteristicPolynomial 2 { realRoots := [5], diag := none, eigs := none } =
      Except.ok ([5], [Tier.realRootsTier]) ∧
    (∃ res : List ℚ × List Tier,
      solveCharacteristicPolynomial 4 { realRoots := [5], diag := none, eigs := none } =
        Except.ok res ∧
      Tier.realRootsTier ∉ res.2 ∧
      Tier.diagTier ∈ res.2 ∧
      (Tier.eigsTier ∈ res.2 ↔
        ({ realRoots := [5], diag := none, eigs := none } : Oracles).diag.getD [] = [])) :=
  ⟨(solveCharPoly_tier_order 2 { realRoots := [5], diag := none, eigs := none }).1
      (by norm_num) (by norm_num),
   (solveCharPoly_tier_order 4 { realRoots := [5], diag := none, eigs := none }).2
      (by norm_num) (by norm_num)⟩

/-! ## Claim C3 — snapping and deduplication in `solveRealRoots` -/

/-- The deduplication fold keeps an accumulator whose members stay at least
`1e-6` apart. -/
theorem dedupClose_foldl_pairwise (l : List ℚ) (acc : List ℚ)
    (hacc : List.Pairwise (fun a b => 1 / 10 ^ 6 ≤ |a - b|) acc) :
    List.Pairwise (fun a b => 1 / 10 ^ 6 ≤ |a - b|)
      (l.foldl
        (fun acc current =>
          if acc.any (fun u => decide (|u - current| < 1 / 10 ^ 6)) then acc
          else acc ++ [current])
        acc) := by
  induction l generalizing acc with
  | nil => exact hacc
  | cons c cs ih =>
    simp only [List.foldl_cons]
    by_cases h : acc.any (fun u => decide (|u - c| < 1 / 10 ^ 6)) = true
    · rw [if_pos h]
      exact ih acc hacc
    · rw [if_neg h]
      refine ih _ (List.pairwise_append.mpr ⟨hacc, List.pairwise_singleton _ _, ?_⟩)
      intro a ha b hb
      have hb' : b = c := List.mem_singleton.mp hb
      subst hb'
      have := List.any_eq_false.mp (Bool.eq_false_iff.mpr h) a ha
      simp only [decide_eq_true_eq] at this
      exact not_lt.mp this

/-- Every member of the deduplication fold comes from the accumulator or
the input list. -/
theorem dedupClose_foldl_subset (l : List ℚ) (acc : List ℚ) (x : ℚ)
    (hx : x ∈ l.foldl
      (fun acc current =>
        if acc.any (fun u => decide (|u - current| < 1 / 10 ^ 6)) then acc
        else acc ++ [current])
      acc) :
    x ∈ acc ∨ x ∈ l := by
  induction l generalizing acc with
  | nil => exact Or.inl hx
  | cons c cs ih =>
    simp only [List.foldl_cons] at hx
    by_cases h : acc.any (fun u => decide (|u - c| < 1 / 10 ^ 6)) = true
    · rw [if_pos h] at hx
      rcases ih acc hx with h1 | h2
      · exact Or.inl h1
      · exact Or.inr (List.mem_cons_of_mem c h2)
    · rw [if_neg h] at hx
      rcases ih _ hx with h1 | h2
      · rcases List.mem_append.mp h1 with h1a | h1c
        · exact Or.inl h1a
        · exact Or.inr (List.mem_cons.mpr (Or.inl (List.mem_singleton.mp h1c)))
      · exact Or.inr (List.mem_cons_of_mem c h2)

/-- `Math.round` lands within `1/2` of its argument. -/
theorem jsRound_close (q : ℚ) : |q - (jsRound q : ℚ)| ≤ 1 / 2 := by
  have h1 : ((jsRound q : ℤ) : ℚ) ≤ q + 1 / 2 := Int.floor_le (q + 1 / 2)
  have h2 : q + 1 / 2 < (jsRound q : ℚ) + 1 := Int.lt_floor_add_one (q + 1 / 2)
  rw [abs_le]
  constructor <;> linarith

/-- Distinct integers are at distance at least `1` as rationals. -/
theorem int_cast_gap (r k : ℤ) (h : r ≠ k) : (1 : ℚ) ≤ |(r : ℚ) - (k : ℚ)| := by
  have h1 : 1 ≤ |r - k| := Int.one_le_abs (sub_ne_zero.mpr h)
  calc (1 : ℚ) ≤ ((|r - k| : ℤ) : ℚ) := by exact_mod_cast h1
    _ = |(r : ℚ) - (k : ℚ)| := by push_cast [Int.cast_abs]; ring_nf

/-- A snapped value that lies within `1e-6` of an integer is that exact
integer. -/
theorem snapValue_int_snapped (ev : ℚ) (k : ℤ)
    (hk : |snapValue ev - (k : ℚ)| < 1 / 10 ^ 6) : snapValue ev = (k : ℚ) := by
  by_cases hA : |ev - (jsRound ev : ℚ)| < 1 / 10 ^ 6
  · have hval : snapValue ev = (jsRound ev : ℚ) := by
      simp only [snapValue]
      rw [if_pos hA]
    rw [hval] at hk ⊢
    by_contra hne
    have hzk : jsRound ev ≠ k := by
      intro h
      exact hne (by exact_mod_cast h)
    have := int_cast_gap (jsRound ev) k hzk
    linarith
  · by_cases hB : |ev| < 1 / 10 ^ 6
    · have hval : snapValue ev = 0 := by
        simp only [snapValue]
        rw [if_neg hA, if_pos hB]
      rw [hval] at hk ⊢
      by_contra hne
      have hzk : (0 : ℤ) ≠ k := by
        intro h
        exact hne (by rw [← h, Int.cast_zero])
      have := int_cast_gap 0 k hzk
      rw [Int.cast_zero] at this
      linarith
    · have hval : snapValue ev = ev := by
        simp only [snapValue]
        rw [if_neg hA, if_neg hB]
      rw [hval] at hk ⊢
      exfalso
      by_cases hkr : k = jsRound ev
      · subst hkr
        exact hA hk
      · have hgap := int_cast_gap (jsRound ev) k (fun h => hkr h.symm)
        have hclose := jsRound_close ev
        have htri : |(jsRound ev : ℚ) - (k : ℚ)| ≤
            |(jsRound ev : ℚ) - ev| + |ev - (k : ℚ)| := abs_sub_le _ _ _
        rw [abs_sub_comm] at hclose
        linarith

/-- `validateEigenvalues` output: pairwise separation of at least `1e-6`. -/
theorem validateEigenvalues_pairwise (l : List ℚ) :
    List.Pairwise (fun a b => 1 / 10 ^ 6 ≤ |a - b|) (validateEigenvalues l) :=
  dedupClose_foldl_pairwise (l.map snapValue) [] List.Pairwise.nil

/-- `validateEigenvalues` output: every member within `1e-6` of an integer
is that exact integer. -/
theorem validateEigenvalues_int_snapped (l : List ℚ) :
    ∀ x ∈ validateEigenvalues l, ∀ k : ℤ, |x - (k : ℚ)| < 1 / 10 ^ 6 → x = (k : ℚ) := by
  intro x hx k hk
  rcases dedupClose_foldl_subset (l.map snapValue) [] x hx with h0 | hmem
  · exact absurd h0 (List.not_mem_nil x)
  · obtain ⟨ev, _, hev⟩ := List.mem_map.mp hmem
    subst hev
    exact snapValue_int_snapped ev k hk

/-- C3 amended: the cubic and Newton-Raphson branch results (cleaned
degree ≥ 3) are post-processed by `validateEigenvalues`, whose output has
every near-integer member snapped exactly and no two members within
`1e-6`; the linear and quadratic branches return their roots without this
post-processing (see the counterexample). -/
theorem solveRealRoots_postprocessing (inputCoeffs : List ℚ) (poly : String)
    (cubicRoots nrRoots : List ℚ)
    (h4 : 4 ≤ (cleanCoeffs inputCoeffs).length) :
    solveRealRoots inputCoeffs poly cubicRoots nrRoots =
      validateEigenvalues
        (if (cleanCoeffs inputCoeffs).length = 4 then cubicRoots else nrRoots) ∧
    List.Pairwise (fun a b => 1 / 10 ^ 6 ≤ |a - b|)
      (solveRealRoots inputCoeffs poly cubicRoots nrRoots) ∧
    (∀ x ∈ solveRealRoots inputCoeffs poly cubicRoots nrRoots,
      ∀ k : ℤ, |x - (k : ℚ)| < 1 / 10 ^ 6 → x = (k : ℚ)) := by
  have hbranch : solveRealRoots inputCoeffs poly cubicRoots nrRoots =
      validateEigenvalues
        (if (cleanCoeffs inputCoeffs).length = 4 then cubicRoots else nrRoots) := by
    rcases hL : cleanCoeffs inputCoeffs with _ | ⟨a, _ | ⟨b, _ | ⟨c, _ | ⟨d, rest⟩⟩⟩⟩
    · rw [hL] at h4; simp only [List.length_nil] at h4; omega
    · rw [hL] at h4; simp only [List.length_cons, List.length_nil] at h4; omega
    · rw [hL] at h4; simp only [List.length_cons, List.length_nil] at h4; omega
    · rw [hL] at h4; simp only [List.length_cons, List.length_nil] at h4; omega
    · rcases rest with _ | ⟨r, rs⟩
      · simp [solveRealRoots, hL]
      · have hlen : (cleanCoeffs inputCoeffs).length ≠ 4 := by
          rw [hL]; simp only [List.length_cons]; omega
        simp [solveRealRoots, hL, if_neg hlen]
  refine ⟨hbranch, ?_, ?_⟩
  · rw [hbranch]
    exact validateEigenvalues_pairwise _
  · rw [hbranch]
    exact validateEigenvalues_int_snapped _

/-- C3 amended witness: a cleaned degree-4 input is routed through
`validateEigenvalues`, and the post-processing guarantees hold on it. -/
theorem solveRealRoots_postprocessing_witness :
    solveRealRoots [1, 0, 0, 0] "" [2, 2 + 1 / 10 ^ 8] [] =
      validateEigenvalues [2, 2 + 1 / 10 ^ 8] ∧
    List.Pairwise (fun a b => 1 / 10 ^ 6 ≤ |a - b|)
      (solveRealRoots [1, 0, 0, 0] "" [2, 2 + 1 / 10 ^ 8] []) ∧
    (∀ x ∈ solveRealRoots [1, 0, 0, 0] "" [2, 2 + 1 / 10 ^ 8] [],
      ∀ k : ℤ, |x - (k : ℚ)| < 1 / 10 ^ 6 → x = (k : ℚ)) := by
  have h := solveRealRoots_postprocessing [1, 0, 0, 0] "" [2, 2 + 1 / 10 ^ 8] []
    (by norm_num [cleanCoeffs])
  have h4 : (cleanCoeffs [1, 0, 0, 0]).length = 4 := by norm_num [cleanCoeffs]
  rw [if_pos h4] at h
  exact h

/-- C3 counterexample: the quadratic branch bypasses the post-processing.
For `10^7·x² − x` the exact roots `0` and `10⁻⁷` are both returned: they
lie within `1e-6` of each other (no deduplication at that tolerance), and
`10⁻⁷` lies within `1e-6` of the integer `0` yet is not snapped to it. -/
theorem solveRealRoots_quadratic_skips_validation :
    solveRealRoots [10 ^ 7, -1, 0] "" [] [] = [0, 1 / 10 ^ 7] ∧
    |(0 : ℚ) - 1 / 10 ^ 7| < 1 / 10 ^ 6 ∧
    (1 : ℚ) / 10 ^ 7 ≠ ((0 : ℤ) : ℚ) ∧
    |(1 : ℚ) / 10 ^ 7 - ((0 : ℤ) : ℚ)| < 1 / 10 ^ 6 := by
  refine ⟨?_, ?_, by norm_num, ?_⟩
  · simp only [solveRealRoots, cleanCoeffs]
    norm_num [ratSqrt_one, jsSortNum, List.insertionSort, List.orderedInsert, abs_of_nonneg]
  · rw [zero_sub, abs_neg, abs_of_nonneg (by norm_num : (0 : ℚ) ≤ 1 / 10 ^ 7)]
    norm_num
  · rw [Int.cast_zero, sub_zero, abs_of_nonneg (by norm_num : (0 : ℚ) ≤ 1 / 10 ^ 7)]
    norm_num

/-! ## Claim C6 — the quadratic branch of `solveRealRoots` -/

/-- The quadratic formula root `(-b + sq) / (2a)` is a root when
`sq² = b² - 4ac`. -/
theorem quadratic_formula_root (a b c sq : ℚ) (ha : a ≠ 0)
    (hsq : sq * sq = b * b - 4 * a * c) :
    a * ((-b + sq) / (2 * a)) ^ 2 + b * ((-b + sq) / (2 * a)) + c = 0 := by
  field_simp
  ring_nf
  nlinarith [hsq]

/-- C6: for a quadratic `a·x² + b·x + c` (`a ≠ 0`) with exactly computed
square root, a negative discriminant yields the empty root list; a
non-negative discriminant yields both quadratic-formula roots (sorted
ascending), collapsed to a single root when they coincide within `1e-14`,
and every returned value is a root; the characteristic polynomial
`x² + 1` of the rotation-like matrix `[[0,-1],[1,0]]` yields the empty
list — no crash and, in the exact model, no non-number. -/
theorem solveRealRoots_quadratic_branch (a b c disc sq : ℚ) (s : String)
    (cubicRoots nrRoots : List ℚ) (ha : a ≠ 0)
    (hdisc : disc = b * b - 4 * a * c) (hsqrt : sq = Rat.sqrt disc) :
    (disc < 0 → solveRealRoots [a, b, c] s cubicRoots nrRoots = []) ∧
    (0 ≤ disc → sq * sq = disc →
      (∀ r ∈ solveRealRoots [a, b, c] s cubicRoots nrRoots,
        a * r ^ 2 + b * r + c = 0) ∧
      (-b + sq) / (2 * a) ∈ solveRealRoots [a, b, c] s cubicRoots nrRoots ∧
      (1 / 10 ^ 14 < |(-b + sq) / (2 * a) - (-b - sq) / (2 * a)| →
        solveRealRoots [a, b, c] s cubicRoots nrRoots =
          jsSortNum [(-b + sq) / (2 * a), (-b - sq) / (2 * a)]) ∧
      (¬ 1 / 10 ^ 14 < |(-b + sq) / (2 * a) - (-b - sq) / (2 * a)| →
        solveRealRoots [a, b, c] s cubicRoots nrRoots = [(-b + sq) / (2 * a)])) ∧
    solveRealRoots [1, 0, 1] s cubicRoots nrRoots = [] := by
  subst hdisc
  subst hsqrt
  have hclean : cleanCoeffs [a, b, c] = [a, b, c] := by simp [cleanCoeffs, ha]
  have hEq : solveRealRoots [a, b, c] s cubicRoots nrRoots =
      (if 0 ≤ b * b - 4 * a * c then
        jsSortNum ((-b + Rat.sqrt (b * b - 4 * a * c)) / (2 * a) ::
          (if 1 / 10 ^ 14 < |(-b + Rat.sqrt (b * b - 4 * a * c)) / (2 * a) -
              (-b - Rat.sqrt (b * b - 4 * a * c)) / (2 * a)| then
            [(-b - Rat.sqrt (b * b - 4 * a * c)) / (2 * a)]
          else []))
      else []) := by
    simp only [solveRealRoots, hclean]
  refine ⟨fun hneg => ?_, fun h0 hsqsq => ?_, ?_⟩
  · rw [hEq, if_neg (not_le.mpr hneg)]
  · refine ⟨fun r hr => ?_, ?_, fun hfar => ?_, fun hnear => ?_⟩
    · rw [hEq, if_pos h0] at hr
      rw [jsSortNum, (List.perm_insertionSort _ _).mem_iff] at hr
      rcases List.mem_cons.mp hr with h1 | h2
      · rw [h1]
        exact quadratic_formula_root a b c _ ha hsqsq
      · by_cases hif : 1 / 10 ^ 14 < |(-b + Rat.sqrt (b * b - 4 * a * c)) / (2 * a) -
            (-b - Rat.sqrt (b * b - 4 * a * c)) / (2 * a)|
        · rw [if_pos hif] at h2
          rw [List.mem_singleton.mp h2]
          have hminus : -Rat.sqrt (b * b - 4 * a * c) * -Rat.sqrt (b * b - 4 * a * c) =
              b * b - 4 * a * c := by rw [neg_mul_neg]; exact hsqsq
          have := quadratic_formula_root a b c (-Rat.sqrt (b * b - 4 * a * c)) ha hminus
          simpa [sub_eq_add_neg] using this
        · rw [if_neg hif] at h2
          exact absurd h2 (List.not_mem_nil r)
    · rw [hEq, if_pos h0, jsSortNum, (List.perm_insertionSort _ _).mem_iff]
      exact List.mem_cons_self _ _
    · rw [hEq, if_pos h0, if_pos hfar]
    · rw [hEq, if_pos h0, if_neg hnear]
      simp [jsSortNum, List.insertionSort, List.orderedInsert]
  · simp only [solveRealRoots, cleanCoeffs]
    norm_num

/-- C6 witness: `x² - 3x + 2` has discriminant `1`; the theorem yields the
root `2 = (3 + √1)/2` and that every returned value is a root. -/
theorem solveRealRoots_quadratic_branch_witness :
    (-(-3) + Rat.sqrt 1) / (2 * 1) ∈ solveRealRoots [1, -3, 2] "" [] [] ∧
    (∀ r ∈ solveRealRoots [1, -3, 2] "" [] [],
      (1 : ℚ) * r ^ 2 + (-3) * r + 2 = 0) := by
  have h := (solveRealRoots_quadratic_branch 1 (-3) 2 1 (Rat.sqrt 1) "" [] []
    (by norm_num) (by norm_num) rfl).2.1 (by norm_num)
    (by rw [ratSqrt_one]; norm_num)
  exact ⟨h.2.1, h.1⟩

/-! ## Claim C4 — pivot handling in `rref` -/

/-- The pivot scan returns `none` when every scanned entry is zero. -/
theorem findPivotRowGo_eq_none (m : Mat) (col : Nat) :
    ∀ (remaining row : Nat),
      (∀ r, row ≤ r → r < row + remaining → m r col = 0) →
      findPivotRowGo m col row remaining = none := by
  intro remaining
  induction remaining with
  | zero => intro row _; rfl
  | succ rem ih =>
    intro row h
    have h0 : m row col = 0 := h row (Nat.le_refl row) (by omega)
    simp only [findPivotRowGo, h0, ne_eq, not_true_eq_false, if_false]
    exact ih (row + 1) (fun r hr1 hr2 => h r (by omega) (by omega))

/-- The pivot scan returns the first non-zero entry in its window. -/
theorem findPivotRowGo_eq_some (m : Mat) (col : Nat) :
    ∀ (remaining row p : Nat),
      findPivotRowGo m col row remaining = some p →
      row ≤ p ∧ p < row + remaining ∧ m p col ≠ 0 ∧
        ∀ r, row ≤ r → r < p → m r col = 0 := by
  intro remaining
  induction remaining with
  | zero => intro row p h; exact absurd h (by simp [findPivotRowGo])
  | succ rem ih =>
    intro row p h
    by_cases h0 : m row col ≠ 0
    · rw [findPivotRowGo, if_pos h0] at h
      obtain rfl : row = p := Option.some_injective _ h
      exact ⟨Nat.le_refl _, by omega, h0, fun r hr1 hr2 => absurd hr1 (by omega)⟩
    · rw [findPivotRowGo, if_neg h0] at h
      obtain ⟨h1, h2, h3, h4⟩ := ih (row + 1) p h
      refine ⟨by omega, by omega, h3, fun r hr1 hr2 => ?_⟩
      rcases Nat.eq_or_lt_of_le hr1 with rfl | hlt
      · exact not_ne_iff.mp h0
      · exact h4 r hlt hr2

/-- The elimination fold never changes the pivot-row entry of the pivot
column. -/
theorem elimOthers_foldl_pivot (currentRow col : Nat) (l : List Nat) :
    ∀ (acc : Mat), acc currentRow col = 1 →
      (l.foldl
        (fun acc row =>
          if row ≠ currentRow ∧ acc row col ≠ 0 then
            E3 acc currentRow row (acc row col)
          else acc)
        acc) currentRow col = 1 := by
  induction l with
  | nil => intro acc h; exact h
  | cons r0 t ih =>
    intro acc h
    simp only [List.foldl_cons]
    by_cases hc : r0 ≠ currentRow ∧ acc r0 col ≠ 0
    · rw [if_pos hc]
      refine ih _ ?_
      simp only [E3]
      rw [if_neg (fun he : currentRow = r0 => hc.1 he.symm)]
      exact h
    · rw [if_neg hc]
      exact ih acc h

/-- The elimination fold leaves rows outside its worklist unchanged. -/
theorem elimOthers_foldl_untouched (currentRow col : Nat) (l : List Nat) :
    ∀ (acc : Mat) (r : Nat), r ∉ l →
      (l.foldl
        (fun acc row =>
          if row ≠ currentRow ∧ acc row col ≠ 0 then
            E3 acc currentRow row (acc row col)
          else acc)
        acc) r col = acc r col := by
  induction l with
  | nil => intro acc r _; rfl
  | cons r0 t ih =>
    intro acc r hr
    have hr0 : r ≠ r0 := fun h => hr (h ▸ List.mem_cons_self r0 t)
    have hrt : r ∉ t := fun h => hr (List.mem_cons_of_mem r0 h)
    simp only [List.foldl_cons]
    by_cases hc : r0 ≠ currentRow ∧ acc r0 col ≠ 0
    · rw [if_pos hc, ih _ r hrt]
      simp only [E3]
      rw [if_neg hr0]
    · rw [if_neg hc]
      exact ih acc r hrt

/-- After the elimination fold every processed row other than the pivot
row has a zero in the pivot column (the pivot entry being `1`). -/
theorem elimOthers_foldl_zero (currentRow col : Nat) (l : List Nat) :
    ∀ (acc : Mat), l.Nodup → acc currentRow col = 1 →
      ∀ r ∈ l, r ≠ currentRow →
        (l.foldl
          (fun acc row =>
            if row ≠ currentRow ∧ acc row col ≠ 0 then
              E3 acc currentRow row (acc row col)
            else acc)
          acc) r col = 0 := by
  induction l with
  | nil => intro acc _ _ r hr; exact absurd hr (List.not_mem_nil r)
  | cons r0 t ih =>
    intro acc hnd hpiv r hr hrne
    have hnd' := List.nodup_cons.mp hnd
    simp only [List.foldl_cons]
    rcases List.mem_cons.mp hr with rfl | hrt
    · by_cases hc : r ≠ currentRow ∧ acc r col ≠ 0
      · rw [if_pos hc]
        rw [elimOthers_foldl_untouched currentRow col t _ r hnd'.1]
        simp [E3, hpiv]
      · rw [if_neg hc]
        have h0 : acc r col = 0 := by
          by_contra hne
          exact hc ⟨hrne, hne⟩
        rw [elimOthers_foldl_untouched currentRow col t acc r hnd'.1, h0]
    · by_cases hc : r0 ≠ currentRow ∧ acc r0 col ≠ 0
      · rw [if_pos hc]
        refine ih _ hnd'.2 ?_ r hrt hrne
        simp only [E3]
        rw [if_neg (fun he : currentRow = r0 => hc.1 he.symm)]
        exact hpiv
      · rw [if_neg hc]
        exact ih acc hnd'.2 hpiv r hrt hrne

/-- C4 amended: `rref` treats only an exactly-zero column segment as "no
pivot" (there is no approximate-zero tolerance): when every entry at or
below the current pivot row is exactly `0` the column is skipped and the
matrix is unchanged; otherwise the pivot scan returns the first non-zero
entry at or below the current pivot row, and after the step the pivot
entry equals `1` and every other entry of the column (within the matrix)
equals `0`. -/
theorem rref_pivot_step_semantics (rows : Nat) (m : Mat) (col currentRow : Nat) :
    ((∀ r, currentRow ≤ r → r < rows → m r col = 0) →
      findPivotRow m col currentRow rows = none ∧
      rrefStep rows (m, currentRow) col = (m, currentRow)) ∧
    (∀ p, findPivotRow m col currentRow rows = some p →
      currentRow ≤ p ∧ p < rows ∧ m p col ≠ 0 ∧
      (∀ r, currentRow ≤ r → r < p → m r col = 0) ∧
      (rrefStep rows (m, currentRow) col).2 = currentRow + 1 ∧
      (rrefStep rows (m, currentRow) col).1 currentRow col = 1 ∧
      (∀ r, r < rows → r ≠ currentRow →
        (rrefStep rows (m, currentRow) col).1 r col = 0)) := by
  constructor
  · intro hz
    have hnone : findPivotRow m col currentRow rows = none := by
      apply findPivotRowGo_eq_none
      intro r hr1 hr2
      exact hz r hr1 (by omega)
    exact ⟨hnone, by simp only [rrefStep, hnone]⟩
  · intro p hp
    obtain ⟨h1, h2, h3, h4⟩ := findPivotRowGo_eq_some m col (rows - currentRow) currentRow p hp
    have hprows : p < rows := by omega
    have hstep : rrefStep rows (m, currentRow) col =
        (elimOthers
          (if (if p ≠ currentRow then E1 m p currentRow else m) currentRow col ≠ 1 then
            E2 (if p ≠ currentRow then E1 m p currentRow else m) currentRow
              (1 / (if p ≠ currentRow then E1 m p currentRow else m) currentRow col)
          else (if p ≠ currentRow then E1 m p currentRow else m))
          currentRow col rows, currentRow + 1) := by
      simp only [rrefStep, hp]
    have hm1 : (if p ≠ currentRow then E1 m p currentRow else m) currentRow col = m p col := by
      by_cases hpc : p ≠ currentRow
      · rw [if_pos hpc]
        simp [E1]
      · rw [if_neg hpc]
        rw [not_ne_iff.mp hpc]
    have hm2 : (if (if p ≠ currentRow then E1 m p currentRow else m) currentRow col ≠ 1 then
        E2 (if p ≠ currentRow then E1 m p currentRow else m) currentRow
          (1 / (if p ≠ currentRow then E1 m p currentRow else m) currentRow col)
        else (if p ≠ currentRow then E1 m p currentRow else m)) currentRow col = 1 := by
      by_cases hone : (if p ≠ currentRow then E1 m p currentRow else m) currentRow col ≠ 1
      · rw [if_pos hone]
        simp only [E2, if_pos rfl]
        rw [hm1] at hone ⊢
        field_simp
      · rw [if_neg hone]
        exact not_ne_iff.mp hone
    refine ⟨h1, hprows, h3, fun r hr1 hr2 => h4 r hr1 hr2, ?_, ?_, ?_⟩
    · rw [hstep]
    · rw [hstep]
      exact elimOthers_foldl_pivot currentRow col (List.range rows) _ hm2
    · intro r hr hrne
      rw [hstep]
      exact elimOthers_foldl_zero currentRow col (List.range rows) _
        (List.nodup_range rows) hm2 r (List.mem_range.mpr hr) hrne

/-- C4 amended witness: on the 2×2-column `[[0],[1]]` the pivot scan finds
row `1`, and after the step the pivot entry is `1` with the other row
zeroed. -/
theorem rref_pivot_step_semantics_witness :
    findPivotRow (fun i _ => if i = 0 then 0 else 1) 0 0 2 = some 1 ∧
    (rrefStep 2 ((fun i _ => if i = 0 then (0 : ℚ) else 1), 0) 0).1 0 0 = 1 ∧
    (rrefStep 2 ((fun i _ => if i = 0 then (0 : ℚ) else 1), 0) 0).1 1 0 = 0 := by
  have hfind : findPivotRow (fun i _ => if i = 0 then (0 : ℚ) else 1) 0 0 2 = some 1 := by
    simp [findPivotRow, findPivotRowGo]
  have h := (rref_pivot_step_semantics 2 (fun i _ => if i = 0 then (0 : ℚ) else 1) 0 0).2
    1 hfind
  exact ⟨hfind, h.2.2.2.2.2.1, h.2.2.2.2.2.2 1 (by norm_num) (by norm_num)⟩

/-- C4 counterexample: the entry `1e-13` is below the repository's own
numerical tolerance `1e-12` (and «approximately zero» on any reading of
the spec), yet `rref` does not skip the column: it uses the entry as a
pivot and scales it to `1`, so the result differs from the input. -/
theorem rref_no_tolerance_counterexample :
    rref 1 1 (fun _ _ => 1 / 10 ^ 13) 0 0 = 1 ∧
    (1 : ℚ) / 10 ^ 13 < nsTol ∧
    rref 1 1 (fun _ _ => 1 / 10 ^ 13) 0 0 ≠ 1 / 10 ^ 13 := by
  have heval : rref 1 1 (fun _ _ => (1 : ℚ) / 10 ^ 13) 0 0 = 1 := by
    simp only [rref, listRange1, rrefCols, rrefStep, findPivotRow, findPivotRowGo,
      elimOthers, E1, E2, E3]
    norm_num [listRange1]
    norm_num [E2]
  refine ⟨heval, by norm_num [nsTol], ?_⟩
  rw [heval]
  norm_num

/-! ## Claim C5 — the eigenspace builder and its zero-vector filter -/

/-- The basis-vector fold keeps the free-variable coordinate above the
tolerance: it starts at `1` and every overwrite stores a value whose
magnitude already exceeded the tolerance. -/
theorem basisVectorFor_foldl_inv (m : Mat) (cols freeVar : Nat) (l : List Nat) :
    ∀ (v : Nat → ℚ), nsTol < |v freeVar| →
      nsTol <
        |(l.foldl
            (fun v row =>
              match rowLeadingCol m row cols with
              | some pivotCol =>
                if nsTol < |m row freeVar| then
                  Function.update v pivotCol (-(m row freeVar))
                else v
              | none => v)
            v) freeVar| := by
  induction l with
  | nil => intro v hv; exact hv
  | cons r0 t ih =>
    intro v hv
    simp only [List.foldl_cons]
    rcases hlead : rowLeadingCol m r0 cols with _ | pc
    · exact ih v hv
    · refine ih _ ?_
      show nsTol <
        |(if nsTol < |m r0 freeVar| then Function.update v pc (-(m r0 freeVar)) else v) freeVar|
      by_cases hcoeff : nsTol < |m r0 freeVar|
      · rw [if_pos hcoeff]
        by_cases hpc : pc = freeVar
        · subst hpc
          rw [Function.update_same, abs_neg]
          exact hcoeff
        · rw [Function.update_noteq (fun h => hpc h.symm)]
          exact hv
      · rw [if_neg hcoeff]
        exact hv

/-- Every vector returned by `findNullSpace` has a coordinate (within the
column range) of magnitude above the `1e-12` tolerance — the all-zero
filter in the eigenspace builder can never remove anything. -/
theorem findNullSpace_vectors_nonzero (rows cols : Nat) (m : Mat) (hcols : 0 < cols) :
    ∀ v ∈ findNullSpace rows cols m, ∃ j, j < cols ∧ nsTol < |v j| := by
  intro v hv
  simp only [findNullSpace] at hv
  by_cases hempty :
      ((List.range cols).filter
        (fun col => !(pivotColsOf (rref rows cols m) rows cols).contains col)).isEmpty
  · rw [if_pos hempty] at hv
    have hv' : v = stdFirstBasisVector := List.mem_singleton.mp hv
    subst hv'
    exact ⟨0, hcols, by norm_num [stdFirstBasisVector, nsTol]⟩
  · rw [if_neg hempty] at hv
    rw [List.isEmpty_iff] at hempty
    have hmapne :
        ¬ (((List.range cols).filter
            (fun col => !(pivotColsOf (rref rows cols m) rows cols).contains col)).map
          (basisVectorFor (rref rows cols m) rows cols)).isEmpty := by
      rw [List.isEmpty_iff, List.map_eq_nil_iff]
      exact hempty
    rw [if_neg hmapne] at hv
    obtain ⟨fv, hfv, hveq⟩ := List.mem_map.mp hv
    have hfvlt : fv < cols := List.mem_range.mp (List.mem_filter.mp hfv).1
    refine ⟨fv, hfvlt, ?_⟩
    subst hveq
    unfold basisVectorFor
    apply basisVectorFor_foldl_inv
    rw [Function.update_same]
    norm_num [nsTol]

/-- `findNullSpace` never returns an empty list of vectors. -/
theorem findNullSpace_ne_nil (rows cols : Nat) (m : Mat) :
    findNullSpace rows cols m ≠ [] := by
  simp only [findNullSpace]
  by_cases hempty :
      ((List.range cols).filter
        (fun col => !(pivotColsOf (rref rows cols m) rows cols).contains col)).isEmpty
  · rw [if_pos hempty]
    simp
  · rw [if_neg hempty]
    by_cases hmap :
        (((List.range cols).filter
            (fun col => !(pivotColsOf (rref rows cols m) rows cols).contains col)).map
          (basisVectorFor (rref rows cols m) rows cols)).isEmpty
    · rw [if_pos hmap]
      simp
    · rw [if_neg hmap]
      rw [List.isEmpty_iff] at hmap
      exact hmap

/-- C5 amended: the builder returns the null-space result unfiltered (the
all-zero filter only gates a diagnostic); that filter in fact never
removes a vector — every returned vector has a component above `1e-12` —
so the returned and filtered bases coincide, are non-empty, and the
"filtering left nothing" diagnostic branch is unreachable.  (The
fabrication that does exist is the `e1` fallback inside the null-space
routine; see the counterexample.) -/
theorem findEigenvectorBasis_filter_is_identity (n : Nat) (hn : 0 < n)
    (xIMinusA : Nat → Nat → Cell) (lam : ℚ) :
    (findEigenvectorBasis xIMinusA n lam).basis =
      findNullSpace n n (substMatrix xIMinusA lam) ∧
    validBasisOf n (findEigenvectorBasis xIMinusA n lam).basis =
      (findEigenvectorBasis xIMinusA n lam).basis ∧
    (findEigenvectorBasis xIMinusA n lam).basis ≠ [] ∧
    validBasisOf n (findEigenvectorBasis xIMinusA n lam).basis ≠ [] := by
  have hbasis : (findEigenvectorBasis xIMinusA n lam).basis =
      findNullSpace n n (substMatrix xIMinusA lam) := rfl
  have hfilter : validBasisOf n (findEigenvectorBasis xIMinusA n lam).basis =
      (findEigenvectorBasis xIMinusA n lam).basis := by
    rw [hbasis]
    apply List.filter_eq_self.mpr
    intro v hv
    obtain ⟨j, hj, hjval⟩ :=
      findNullSpace_vectors_nonzero n n (substMatrix xIMinusA lam) hn v hv
    rw [List.any_eq_true]
    exact ⟨j, List.mem_range.mpr hj, by simpa using hjval⟩
  have hne : (findEigenvectorBasis xIMinusA n lam).basis ≠ [] := by
    rw [hbasis]
    exact findNullSpace_ne_nil n n _
  exact ⟨hbasis, hfilter, hne, by rw [hfilter]; exact hne⟩

/-- C5 amended witness: concrete instantiation at `A = [[1]]`, `λ = 1`. -/
theorem findEigenvectorBasis_filter_is_identity_witness :
    validBasisOf 1
        (findEigenvectorBasis (createXIMinusAMatrix (fun _ _ => 1)) 1 1).basis =
      (findEigenvectorBasis (createXIMinusAMatrix (fun _ _ => 1)) 1 1).basis ∧
    (findEigenvectorBasis (createXIMinusAMatrix (fun _ _ => 1)) 1 1).basis ≠ [] :=
  ⟨(findEigenvectorBasis_filter_is_identity 1 (by norm_num)
      (createXIMinusAMatrix (fun _ _ => 1)) 1).2.1,
   (findEigenvectorBasis_filter_is_identity 1 (by norm_num)
      (createXIMinusAMatrix (fun _ _ => 1)) 1).2.2.1⟩

/-- C5 counterexample: for `A = [[1]]` and the (non-)eigenvalue `2` the
substituted matrix `λI − A = [[1]]` is invertible, so its null space is
`{0}`; yet the builder's returned basis is the fabricated standard vector
`e1`, which is not in the null space (`(λI − A)·e1 = 1 ≠ 0`): an invented
non-null-space vector appears in the returned basis. -/
theorem findEigenvectorBasis_fabricated_e1 :
    (findEigenvectorBasis (createXIMinusAMatrix (fun _ _ => 1)) 1 2).basis =
      [stdFirstBasisVector] ∧
    matVecEntry 1 (substMatrix (createXIMinusAMatrix (fun _ _ => 1)) 2)
      stdFirstBasisVector 0 ≠ 0 := by
  have hsub : substMatrix (createXIMinusAMatrix (fun _ _ => 1)) 2 0 0 = 1 := by
    norm_num [substMatrix, substCell, createXIMinusAMatrix]
  constructor
  · simp only [findEigenvectorBasis, findNullSpace]
    have hpiv : pivotColsOf (rref 1 1 (substMatrix (createXIMinusAMatrix (fun _ _ => 1)) 2))
        1 1 = [0] := by
      simp only [pivotColsOf, firstNewLeadingCol, isLeadingEntry, listRange1, rref,
        rrefCols, rrefStep, findPivotRow, findPivotRowGo, elimOthers, E1, E2, E3]
      norm_num [listRange1, hsub, nsTol, substMatrix, substCell, createXIMinusAMatrix]
    rw [hpiv]
    norm_num [listRange1]
  · rw [matVecEntry, listRange1]
    norm_num [hsub, stdFirstBasisVector]

end EigenCalc
